import Mathlib

/-!
Shallow embedding of the session-lifecycle subsystem of `agentdk`
(`src/agentdk/core/persistent_mcp.py` and the logging sanitizer of
`src/agentdk/agent/agent_interface.py`), together with proofs of the
specified properties.

Python dictionaries keyed by server name are modelled as association
lists `List (String × Nat)` with Python's insertion-order semantics;
client objects (`MultiServerMCPClient` instances) and lock objects
(`asyncio.Lock` instances) are identified by the order of their
construction (`Nat` ids drawn from monotone counters), which captures
Python object identity.  External effects (client construction,
transport liveness probing, delegated tool calls) are supplied by an
`Env` oracle.  Exceptions are modelled with `Except String`.
-/

namespace AgentDK

/-- Python `d[k]` / `k in d` as lookup on an association list. -/
def dictLookup : List (String × Nat) → String → Option Nat
  | [], _ => none
  | (k, v) :: rest, key => if k = key then some v else dictLookup rest key

/-- Python `d[k] = v`: update in place if the key is present, else append. -/
def dictInsert : List (String × Nat) → String → Nat → List (String × Nat)
  | [], key, val => [(key, val)]
  | (k, v) :: rest, key, val =>
      if k = key then (k, val) :: rest else (k, v) :: dictInsert rest key val

/-- Python `del d[k]` / `d.pop(k, None)`: drop the entry for the key. -/
def dictDelete : List (String × Nat) → String → List (String × Nat)
  | [], _ => []
  | (k, v) :: rest, key =>
      if k = key then dictDelete rest key else (k, v) :: dictDelete rest key

/-- Python `list(d.keys())`. -/
def dictKeys (m : List (String × Nat)) : List String := m.map (·.1)

/-- Outcome of the transport-liveness probe in `get_session` on a stored
client: the object may lack the `_transport`/`is_closed` attributes
(`noCheck`), report an open or a closed transport, or raise during the
probe (`exn`). -/
inductive SessionCheck where
  | noCheck | openT | closedT | exn
deriving DecidableEq, Repr

/-- Oracle for everything outside the manager: client construction,
liveness probing, and the calls delegated to the transport.  Delegated
tool calls are indexed by the retry-attempt number, the client id used
and the argument map, so a single oracle describes one run. -/
structure Env where
  /-- Whether `MultiServerMCPClient(server_config)` construction (including
  the `client_config[server_name]` lookup) succeeds for this server. -/
  clientOk : String → Bool
  /-- Result of the `_transport`/`is_closed` probe on a stored client id. -/
  check : Nat → SessionCheck
  /-- Result of `session.call_tool(tool_name, kwargs)` inside
  `async with client.session(server_name)`, per attempt / client / args. -/
  toolOutcome : Nat → Nat → List (String × String) → Except String Nat
  /-- Result of `session.list_tools()` on a client id. -/
  listTools : Nat → Except String (List String)
  /-- Result of `temp_client.get_tools()` for a server in
  `create_persistent_tools` (construction failure folded in). -/
  getTools : String → Except String (List String)

/-- Observable events of a run, used to state the testable properties:
a client construction stored into the maps, a `_cleanup_session` pass,
and a delegated transport call. -/
inductive MEvent where
  | createdClient (server : String) (cid : Nat)
  | cleanedSession (server : String)
  | attemptCall (attempt : Nat) (cid : Nat)
deriving DecidableEq, Repr

/-- The mutable state of a `PersistentMCPManager`: `_sessions`,
`_clients`, `_locks`, plus the two freshness counters that model object
identity of clients and locks. -/
structure ManagerState where
  sessions : List (String × Nat)
  clients : List (String × Nat)
  locks : List (String × Nat)
  nextClientId : Nat
  nextLockId : Nat
deriving DecidableEq, Repr

/-- Model of `PersistentMCPManager.__init__`: all three maps start empty. -/
def initState : ManagerState :=
  { sessions := [], clients := [], locks := [], nextClientId := 0, nextLockId := 0 }

/-- Model of `PersistentMCPManager._create_session`: construct a
`MultiServerMCPClient` for the server and store it in both `_clients`
and `_sessions`.  On construction failure the exception is logged and
re-raised, and neither map has been touched (the stores happen after
construction). -/
def create_session (env : Env) (server : String) (st : ManagerState) :
    Except String Unit × ManagerState × List MEvent :=
  if env.clientOk server then
    let cid := st.nextClientId
    (.ok (),
     { st with
        clients := dictInsert st.clients server cid,
        sessions := dictInsert st.sessions server cid,
        nextClientId := st.nextClientId + 1 },
     [.createdClient server cid])
  else
    (.error ("Failed to create client for " ++ server), st, [])

/-- Model of `PersistentMCPManager._cleanup_session`: delete the server's entries
from `_sessions` and `_clients`; locks are deliberately kept.  The body
cannot propagate an exception (the `except` branch performs the same
pops), so the model is total. -/
def cleanup_session (server : String) (st : ManagerState) :
    ManagerState × List MEvent :=
  ({ st with
      sessions := dictDelete st.sessions server,
      clients := dictDelete st.clients server },
   [.cleanedSession server])

/-- The `if server_name not in self._locks` prologue of `get_session`:
create the server's lock on first use, never overwrite an existing one. -/
def ensureLock (server : String) (st : ManagerState) : ManagerState :=
  match dictLookup st.locks server with
  | some _ => st
  | none =>
      { st with
          locks := dictInsert st.locks server st.nextLockId,
          nextLockId := st.nextLockId + 1 }

/-- The `# Create new session` tail of `get_session`: run
`_create_session` and return `self._sessions[server_name]`. -/
def createAndReturn (env : Env) (server : String) (st : ManagerState)
    (evs : List MEvent) : Except String Nat × ManagerState × List MEvent :=
  match create_session env server st with
  | (.ok _, st', ev') =>
      (match dictLookup st'.sessions server with
       | some sid => (.ok sid, st', evs ++ ev')
       | none => (.error "KeyError", st', evs ++ ev'))
  | (.error e, st', ev') => (.error e, st', evs ++ ev')

/-- Model of `PersistentMCPManager.get_session`: ensure the per-server lock, then
under it either return a stored session that passes (or lacks) the
liveness probe, or clean up a closed/failing one and create a fresh
client. -/
def get_session (env : Env) (server : String) (st : ManagerState) :
    Except String Nat × ManagerState × List MEvent :=
  let st0 := ensureLock server st
  match dictLookup st0.sessions server with
  | some sid =>
      match env.check sid with
      | .noCheck => (.ok sid, st0, [])
      | .openT => (.ok sid, st0, [])
      | .closedT =>
          let (st1, ev1) := cleanup_session server st0
          createAndReturn env server st1 ev1
      | .exn =>
          let (st1, ev1) := cleanup_session server st0
          createAndReturn env server st1 ev1
  | none => createAndReturn env server st0 []

/-- One iteration body of the retry loop in `call_tool`: get the client,
then delegate the call through `client.session(server_name)`. -/
def call_tool_attempt (env : Env) (server : String) (args : List (String × String))
    (attempt : Nat) (st : ManagerState) :
    Except String Nat × ManagerState × List MEvent :=
  match get_session env server st with
  | (.ok cid, st', ev) =>
      (match env.toolOutcome attempt cid args with
       | .ok r => (.ok r, st', ev ++ [.attemptCall attempt cid])
       | .error e => (.error e, st', ev ++ [.attemptCall attempt cid]))
  | (.error e, st', ev) => (.error e, st', ev)

/-- The `for attempt in range(max_retries)` loop of `call_tool`, with
the fuel argument equal to the number of remaining iterations.  The
fourth component counts loop iterations actually executed (the final
value of `attempt + 1`); falling off the loop returns Python's implicit
`None`, modelled as `.ok none`. -/
def call_tool_go (env : Env) (server tool : String) (args : List (String × String))
    (maxRetries : Nat) :
    Nat → Nat → ManagerState →
      Except String (Option Nat) × ManagerState × List MEvent × Nat
  | 0, attempt, st => (.ok none, st, [], attempt)
  | fuel + 1, attempt, st =>
      match call_tool_attempt env server args attempt st with
      | (.ok r, st', ev) => (.ok (some r), st', ev, attempt + 1)
      | (.error e, st', ev) =>
          if attempt = maxRetries - 1 then
            (.error ("Tool '" ++ tool ++ "' failed after " ++ toString maxRetries
                ++ " attempts. Last error: " ++ e),
             st', ev, attempt + 1)
          else
            let (st2, ev2) :=
              if (dictLookup st'.sessions server).isSome then
                cleanup_session server st'
              else (st', [])
            match call_tool_go env server tool args maxRetries fuel (attempt + 1) st2 with
            | (res, st3, ev3, n) => (res, st3, ev ++ ev2 ++ ev3, n)

/-- Model of `PersistentMCPManager.call_tool` with its hardcoded
`max_retries = 2`. -/
def call_tool (env : Env) (server tool : String) (args : List (String × String))
    (st : ManagerState) :
    Except String (Option Nat) × ManagerState × List MEvent × Nat :=
  call_tool_go env server tool args 2 2 0 st

/-- Model of `PersistentMCPManager.list_tools`: get the session, then delegate
`session.list_tools()`. -/
def list_tools (env : Env) (server : String) (st : ManagerState) :
    Except String (List String) × ManagerState × List MEvent :=
  match get_session env server st with
  | (.ok sid, st', ev) => (env.listTools sid, st', ev)
  | (.error e, st', ev) => (.error e, st', ev)

/-- Model of `PersistentMCPManager.cleanup`: `_cleanup_session` for every key in
a snapshot of `_sessions`. -/
def cleanup (st : ManagerState) : ManagerState × List MEvent :=
  (dictKeys st.sessions).foldl
    (fun acc k =>
      match cleanup_session k acc.1 with
      | (s, e) => (s, acc.2 ++ e))
    (st, [])

/-- Boolean list-of-chars startsWith, used to define substring search. -/
def listStartsWith : List Char → List Char → Bool
  | [], _ => true
  | _ :: _, [] => false
  | a :: as, b :: bs => a = b && listStartsWith as bs

/-- Boolean substring occurrence on lists of chars. -/
def listHasSub (needle : List Char) : List Char → Bool
  | [] => listStartsWith needle []
  | c :: rest => listStartsWith needle (c :: rest) || listHasSub needle rest

/-- Python's `needle in hay` on strings. -/
def strContainsSub (hay needle : String) : Bool :=
  listHasSub needle.toList hay.toList

/-- The `persistent_tool_func` closure created by
`create_persistent_tool`: one delegation to `manager.call_tool`; an
exception whose text contains `"failed after"` is re-raised unchanged,
any other exception is wrapped as `Tool '<name>' failed: <e>`. -/
def persistent_tool_func (env : Env) (server toolName : String)
    (args : List (String × String)) (st : ManagerState) :
    Except String (Option Nat) × ManagerState × List MEvent × Nat :=
  match call_tool env server toolName args st with
  | (.ok r, st', ev, n) => (.ok r, st', ev, n)
  | (.error e, st', ev, n) =>
      if strContainsSub e "failed after" then
        (.error e, st', ev, n)
      else
        (.error ("Tool '" ++ toolName ++ "' failed: " ++ e), st', ev, n)

/-- Model of `create_persistent_tools`: for each configured server, fetch the
tool schemas with a temporary client (failures logged and skipped with
`continue`) and wrap each schema; the function returns the accumulated
list and never raises.  A wrapped tool is identified by its
(server, tool-name) pair. -/
def create_persistent_tools (env : Env) (config : List String) :
    List (String × String) :=
  config.foldl
    (fun acc server =>
      match env.getTools server with
      | .ok schemas => acc ++ schemas.map (fun t => (server, t))
      | .error _ => acc)
    []

/-- The tools contributed by one server in `create_persistent_tools`,
as the spec describes them: the server's schemas if fetching succeeded,
nothing if it failed. -/
def toolsOfServer (env : Env) (server : String) : List (String × String) :=
  match env.getTools server with
  | .ok schemas => schemas.map (fun t => (server, t))
  | .error _ => []

/-- Whether an event is a delegated transport call. -/
def isAttemptEvent : MEvent → Bool
  | .attemptCall _ _ => true
  | _ => false

/-- Number of delegated transport calls recorded in an event list. -/
def countAttempts (evs : List MEvent) : Nat :=
  (evs.filter isAttemptEvent).length

/-- Well-formedness of the identity model: every client id stored in the
maps was drawn from the freshness counter. Holds for every state the
manager can actually reach. -/
def idsBounded (st : ManagerState) : Bool :=
  st.sessions.all (fun p => p.2 < st.nextClientId) &&
    st.clients.all (fun p => p.2 < st.nextClientId)

/-- State `st'` still holds every lock object `st` held, unchanged. -/
def lockPreserved (st st' : ManagerState) : Prop :=
  ∀ name l, dictLookup st.locks name = some l → dictLookup st'.locks name = some l

/-- The `_clients` and `_sessions` maps agree on every key. -/
def mapsAligned (st : ManagerState) : Prop :=
  ∀ k, dictLookup st.clients k = dictLookup st.sessions k

/-- A value passed to the logging sanitizer: either a Python `str`, or a
non-string value represented by its `str()` form. -/
inductive LogValue where
  | str (s : String)
  | other (asString : String)
deriving DecidableEq, Repr

/-- Model of `AgentInterface._sanitize_for_logging`: non-strings are stringified;
strings longer than 500 characters are cut to their first 500 characters
plus `"..."`; other strings pass through unchanged. -/
def sanitize_for_logging : LogValue → String
  | .other r => r
  | .str s => if 500 < s.length then String.mk (s.data.take 500) ++ "..." else s

/-!
Interleaving model of concurrent `call_tool` callers for one server.

`asyncio` runs tasks cooperatively: code between suspension points is
atomic, and tasks may only interleave where the source awaits.  For a
single server the suspension points of `call_tool` are: acquiring the
per-server lock, the delegated transport call, and the backoff sleep
(`_create_session` and `_cleanup_session` contain no awaits of their
own, so the body they run is atomic; the model below splits the locked
region into two atomic steps, which only adds interleavings).  Each
task's program counter walks the lines of `call_tool`:

  * `start a`     — top of loop iteration `a`, about to call `get_session`;
  * `waitLock a`  — blocked on `async with self._locks[server_name]`;
  * `inspect a`   — holds the lock; runs the stored-session check and
                    liveness probe (lines 43-57);
  * `creating a`  — holds the lock; runs `_create_session` (line 60);
  * `calling a c` — lock released; delegating the call on client `c`
                    (lines 104-106);
  * `failing a`   — in the `except` branch (lines 108-123);
  * `done`        — returned a result or raised the terminal error.

The machine counts client constructions (`created`, the spec's
`enter()` invocations) and session teardowns (`cleaned`, the spec's
recreation-after-failure events).
-/

/-- Program counter of one concurrent `call_tool` caller. -/
inductive TaskPC where
  | start (attempt : Nat)
  | waitLock (attempt : Nat)
  | inspect (attempt : Nat)
  | creating (attempt : Nat)
  | calling (attempt : Nat) (cid : Nat)
  | failing (attempt : Nat)
  | done
deriving DecidableEq, Repr

/-- Oracle for the concurrent model: liveness-probe verdicts per client
id, construction success per client id, and delegated-call success per
(task, attempt). -/
structure CEnv where
  valid : Nat → Bool
  createOk : Nat → Bool
  callOk : Nat → Nat → Bool

/-- Shared state for one server under concurrent `call_tool` callers:
the task pool, the server's `_sessions` entry, the holder of the
server's `asyncio.Lock`, the client-identity counter, and the two event
counters of the claimed bound. -/
structure Machine where
  tasks : Nat → TaskPC
  present : Option Nat
  lockHeld : Option Nat
  nextId : Nat
  created : Nat
  cleaned : Nat

/-- All callers start at the top of `call_tool`; no session, no lock. -/
def initMachine : Machine :=
  { tasks := fun _ => .start 0, present := none, lockHeld := none,
    nextId := 0, created := 0, cleaned := 0 }

/-- Replace task `i`'s program counter. -/
def setPc (m : Machine) (i : Nat) (pc : TaskPC) : Machine :=
  { m with tasks := fun j => if j = i then pc else m.tasks j }

/-- One atomic step of task `i` (scheduled at a suspension point), per
the line mapping documented above.  A task blocked on the lock, or
finished, leaves the machine unchanged. -/
def step (env : CEnv) (m : Machine) (i : Nat) : Machine :=
  match m.tasks i with
  | .start a => setPc m i (.waitLock a)
  | .waitLock a =>
      match m.lockHeld with
      | none => { setPc m i (.inspect a) with lockHeld := some i }
      | some _ => m
  | .inspect a =>
      match m.present with
      | none => setPc m i (.creating a)
      | some cid =>
          if env.valid cid then
            { setPc m i (.calling a cid) with lockHeld := none }
          else
            { setPc m i (.creating a) with
                present := none, cleaned := m.cleaned + 1 }
  | .creating a =>
      if env.createOk m.nextId then
        { setPc m i (.calling a m.nextId) with
            present := some m.nextId, nextId := m.nextId + 1,
            created := m.created + 1, lockHeld := none }
      else
        { setPc m i (.failing a) with lockHeld := none }
  | .calling a _ =>
      if env.callOk i a then setPc m i .done else setPc m i (.failing a)
  | .failing a =>
      if a ≥ 1 then setPc m i .done
      else
        match m.present with
        | some _ =>
            { setPc m i (.start (a + 1)) with
                present := none, cleaned := m.cleaned + 1 }
        | none => setPc m i (.start (a + 1))
  | .done => m

/-- Run the machine under an arbitrary schedule of task ids. -/
def run (env : CEnv) (sched : List Nat) (m : Machine) : Machine :=
  sched.foldl (step env) m

/-- Lock-exclusion invariant: any task inside the locked region of
`get_session` (the inspect/create steps) is the current lock holder —
so at most one task is ever there. -/
def LockInv (m : Machine) : Prop :=
  ∀ j a, (m.tasks j = .inspect a ∨ m.tasks j = .creating a) → m.lockHeld = some j

/-- A task about to run `_create_session` sees no stored session: the
entry was absent or has just been cleaned, and no other task can store
one (that requires the lock). -/
def CreatingInv (m : Machine) : Prop :=
  ∀ j a, m.tasks j = .creating a → m.present = none

/-- Counting invariant tying constructions to teardowns: the counters
differ by one exactly while a session is stored. -/
def CountInv (m : Machine) : Prop :=
  m.created = m.cleaned + (if m.present.isSome then 1 else 0)

/-- The full machine invariant. -/
def MInv (m : Machine) : Prop := LockInv m ∧ CreatingInv m ∧ CountInv m

/-- Fixture: a concurrent-model oracle whose stored sessions always
probe as dead and whose calls fail on the first attempt. -/
def cenvFlaky : CEnv :=
  { valid := fun _ => false, createOk := fun _ => true,
    callOk := fun _ attempt => attempt == 1 }

/-- Fixture: an environment whose delegated tool calls always fail. -/
def envAlwaysFail : Env :=
  { clientOk := fun _ => true,
    check := fun _ => .noCheck,
    toolOutcome := fun _ _ _ => .error "boom",
    listTools := fun _ => .ok [],
    getTools := fun _ => .error "server down" }

/-- Fixture: the delegated call fails on attempt 0 and succeeds on
attempt 1. -/
def envRecover : Env :=
  { envAlwaysFail with
      toolOutcome := fun a _ _ => if a = 0 then .error "boom" else .ok 7 }

/-- Fixture: client construction itself fails. -/
def envNoClient : Env :=
  { envAlwaysFail with clientOk := fun _ => false }

/-- Fixture: a 1000-character string argument. -/
def longArg : String := String.mk (List.replicate 1000 'a')

/-! ### Association-list (Python dict) lemmas -/

theorem dictLookup_insert (m : List (String × Nat)) (k key : String) (v : Nat) :
    dictLookup (dictInsert m k v) key = if k = key then some v else dictLookup m key := by
  induction m with
  | nil => by_cases h : k = key <;> simp [dictInsert, dictLookup, h]
  | cons p rest ih =>
      obtain ⟨pk, pv⟩ := p
      by_cases h1 : pk = k
      · subst h1
        by_cases h2 : pk = key <;> simp [dictInsert, dictLookup, h2]
      · by_cases h2 : pk = key
        · subst h2
          have hk : ¬k = pk := fun h => h1 h.symm
          simp [dictInsert, h1, dictLookup, hk]
        · simp [dictInsert, h1, dictLookup, h2, ih]

theorem dictLookup_delete (m : List (String × Nat)) (k key : String) :
    dictLookup (dictDelete m k) key = if k = key then none else dictLookup m key := by
  induction m with
  | nil => by_cases h : k = key <;> simp [dictDelete, dictLookup, h]
  | cons p rest ih =>
      obtain ⟨pk, pv⟩ := p
      by_cases h1 : pk = k
      · subst h1
        by_cases h2 : pk = key
        · subst h2; simp [dictDelete, ih]
        · simp [dictDelete, dictLookup, h2, ih]
      · by_cases h2 : pk = key
        · subst h2
          have hk : ¬k = pk := fun h => h1 h.symm
          simp [dictDelete, h1, dictLookup, hk]
        · simp [dictDelete, h1, dictLookup, h2, ih]

theorem mem_dictInsert {m : List (String × Nat)} {k : String} {v : Nat}
    {p : String × Nat} (h : p ∈ dictInsert m k v) : p = (k, v) ∨ p ∈ m := by
  induction m with
  | nil => simpa [dictInsert] using h
  | cons q rest ih =>
      obtain ⟨qk, qv⟩ := q
      by_cases h1 : qk = k
      · subst h1
        simp [dictInsert] at h
        rcases h with h | h
        · exact .inl (by simp [h])
        · exact .inr (by simp [h])
      · simp [dictInsert, h1] at h
        rcases h with h | h
        · exact .inr (by simp [h])
        · rcases ih h with h' | h'
          · exact .inl h'
          · exact .inr (by simp [h'])

theorem mem_dictDelete {m : List (String × Nat)} {k : String}
    {p : String × Nat} (h : p ∈ dictDelete m k) : p ∈ m := by
  induction m with
  | nil => simpa [dictDelete] using h
  | cons q rest ih =>
      obtain ⟨qk, qv⟩ := q
      by_cases h1 : qk = k
      · subst h1
        simp [dictDelete] at h
        exact List.mem_cons_of_mem _ (ih h)
      · simp [dictDelete, h1] at h
        rcases h with h | h
        · simp [h]
        · exact List.mem_cons_of_mem _ (ih h)

/-! ### String and substring lemmas -/

theorem strData_append (a b : String) : (a ++ b).data = a.data ++ b.data := by
  obtain ⟨as⟩ := a; obtain ⟨bs⟩ := b; rfl

theorem listStartsWith_append (n r : List Char) :
    listStartsWith n (n ++ r) = true := by
  induction n with
  | nil => rfl
  | cons c cs ih => simp [listStartsWith, ih]

theorem listHasSub_nil_needle (hay : List Char) : listHasSub [] hay = true := by
  cases hay <;> simp [listHasSub, listStartsWith]

theorem listHasSub_append (p n s : List Char) :
    listHasSub n (p ++ (n ++ s)) = true := by
  induction p with
  | nil =>
      cases n with
      | nil => exact listHasSub_nil_needle _
      | cons c cs =>
          simp only [List.nil_append, List.cons_append, listHasSub]
          have h1 : listStartsWith (c :: cs) ((c :: cs) ++ s) = true :=
            listStartsWith_append _ _
          simp only [List.cons_append] at h1
          simp [h1]
  | cons a as ih => simp [listHasSub, ih]

theorem strContainsSub_of_split (hay needle : String) (p s : List Char)
    (h : hay.data = p ++ (needle.data ++ s)) :
    strContainsSub hay needle = true := by
  have ht : hay.toList = hay.data := rfl
  have hn : needle.toList = needle.data := rfl
  unfold strContainsSub
  rw [ht, hn, h]
  exact listHasSub_append p needle.data s

/-! ### `get_session` characterization lemmas -/

theorem ensureLock_sessions (server : String) (st : ManagerState) :
    (ensureLock server st).sessions = st.sessions := by
  unfold ensureLock; split <;> rfl

theorem ensureLock_clients (server : String) (st : ManagerState) :
    (ensureLock server st).clients = st.clients := by
  unfold ensureLock; split <;> rfl

theorem ensureLock_nextClientId (server : String) (st : ManagerState) :
    (ensureLock server st).nextClientId = st.nextClientId := by
  unfold ensureLock; split <;> rfl

theorem createAndReturn_ok (env : Env) (server : String) (st : ManagerState)
    (evs : List MEvent) (h : env.clientOk server = true) :
    createAndReturn env server st evs =
      (.ok st.nextClientId,
       { st with
          clients := dictInsert st.clients server st.nextClientId,
          sessions := dictInsert st.sessions server st.nextClientId,
          nextClientId := st.nextClientId + 1 },
       evs ++ [.createdClient server st.nextClientId]) := by
  simp [createAndReturn, create_session, h, dictLookup_insert]

theorem createAndReturn_fail (env : Env) (server : String) (st : ManagerState)
    (evs : List MEvent) (h : env.clientOk server = false) :
    createAndReturn env server st evs =
      (.error ("Failed to create client for " ++ server), st, evs) := by
  simp [createAndReturn, create_session, h]

theorem dictLookup_mem {m : List (String × Nat)} {key : String} {v : Nat}
    (h : dictLookup m key = some v) : (key, v) ∈ m := by
  induction m with
  | nil => simp [dictLookup] at h
  | cons p rest ih =>
      obtain ⟨pk, pv⟩ := p
      by_cases h1 : pk = key
      · subst h1
        simp [dictLookup] at h
        simp [h]
      · simp [dictLookup, h1] at h
        exact List.mem_cons_of_mem _ (ih h)

theorem idsBounded_lookup_lt {st : ManagerState} {key : String} {v : Nat}
    (hb : idsBounded st = true) (h : dictLookup st.sessions key = some v) :
    v < st.nextClientId := by
  unfold idsBounded at hb
  simp only [Bool.and_eq_true, List.all_eq_true, decide_eq_true_eq] at hb
  exact hb.1 _ (dictLookup_mem h)

theorem idsBounded_insert_fresh {st : ManagerState} (server : String)
    (hb : idsBounded st = true) :
    idsBounded
      { st with
          clients := dictInsert st.clients server st.nextClientId,
          sessions := dictInsert st.sessions server st.nextClientId,
          nextClientId := st.nextClientId + 1 } = true := by
  unfold idsBounded at hb ⊢
  simp only [Bool.and_eq_true, List.all_eq_true, decide_eq_true_eq] at hb ⊢
  constructor
  · intro p hp
    rcases mem_dictInsert hp with h | h
    · subst h; simp
    · exact Nat.lt_trans (hb.1 p h) (Nat.lt_succ_self _)
  · intro p hp
    rcases mem_dictInsert hp with h | h
    · subst h; simp
    · exact Nat.lt_trans (hb.2 p h) (Nat.lt_succ_self _)

theorem idsBounded_delete {st : ManagerState} (server : String)
    (hb : idsBounded st = true) :
    idsBounded
      { st with
          sessions := dictDelete st.sessions server,
          clients := dictDelete st.clients server } = true := by
  unfold idsBounded at hb ⊢
  simp only [Bool.and_eq_true, List.all_eq_true, decide_eq_true_eq] at hb ⊢
  exact ⟨fun p hp => hb.1 p (mem_dictDelete hp),
    fun p hp => hb.2 p (mem_dictDelete hp)⟩

theorem idsBounded_ensureLock (server : String) (st : ManagerState) :
    idsBounded (ensureLock server st) = idsBounded st := by
  unfold ensureLock; split <;> rfl

/-- Reuse branch of `get_session`: a stored session whose probe does not
report a closed transport is returned as-is. -/
theorem get_session_reuse (env : Env) (server : String) (st : ManagerState)
    (sid : Nat) (hl : dictLookup st.sessions server = some sid)
    (hc : env.check sid = .noCheck ∨ env.check sid = .openT) :
    get_session env server st = (.ok sid, ensureLock server st, []) := by
  have hl' : dictLookup (ensureLock server st).sessions server = some sid := by
    rwa [ensureLock_sessions]
  rcases hc with hc | hc <;> simp [get_session, hl', hc]

/-- Recreate branch of `get_session`: a stored session whose probe
reports a closed transport or raises is cleaned up and replaced. -/
theorem get_session_recreate (env : Env) (server : String) (st : ManagerState)
    (sid : Nat) (hl : dictLookup st.sessions server = some sid)
    (hc : env.check sid = .closedT ∨ env.check sid = .exn) :
    get_session env server st =
      createAndReturn env server
        (cleanup_session server (ensureLock server st)).1
        [.cleanedSession server] := by
  have hl' : dictLookup (ensureLock server st).sessions server = some sid := by
    rwa [ensureLock_sessions]
  rcases hc with hc | hc <;> simp [get_session, hl', hc, cleanup_session]

/-- Fresh branch of `get_session`: with no stored session, a new client
is created. -/
theorem get_session_fresh (env : Env) (server : String) (st : ManagerState)
    (hl : dictLookup st.sessions server = none) :
    get_session env server st = createAndReturn env server (ensureLock server st) [] := by
  have hl' : dictLookup (ensureLock server st).sessions server = none := by
    rwa [ensureLock_sessions]
  simp [get_session, hl']

/-- Main `get_session` success lemma: when client construction succeeds,
`get_session` returns a client id that is stored in `_sessions`, emits
no transport calls, does not lower the identity counter, and preserves
the id bound (with the returned id below the new counter). -/
theorem get_session_clientOk (env : Env) (server : String) (st : ManagerState)
    (h : env.clientOk server = true) :
    ∃ cid st' ev,
      get_session env server st = (.ok cid, st', ev) ∧
      dictLookup st'.sessions server = some cid ∧
      st.nextClientId ≤ st'.nextClientId ∧
      countAttempts ev = 0 ∧
      (idsBounded st = true → cid < st'.nextClientId ∧ idsBounded st' = true) := by
  cases hl : dictLookup st.sessions server with
  | none =>
      rw [get_session_fresh env server st hl, createAndReturn_ok _ _ _ _ h]
      refine ⟨(ensureLock server st).nextClientId, _, _, rfl, ?_, ?_, rfl, ?_⟩
      · simp [dictLookup_insert]
      · simp [ensureLock_nextClientId]
      · intro hb
        refine ⟨Nat.lt_succ_self _, ?_⟩
        have hb' : idsBounded (ensureLock server st) = true := by
          rwa [idsBounded_ensureLock]
        exact idsBounded_insert_fresh server hb'
  | some sid =>
      have hcheck : (env.check sid = .noCheck ∨ env.check sid = .openT) ∨
          (env.check sid = .closedT ∨ env.check sid = .exn) := by
        cases env.check sid <;> simp
      rcases hcheck with hc | hc
      · rw [get_session_reuse env server st sid hl hc]
        refine ⟨sid, _, _, rfl, ?_, ?_, rfl, ?_⟩
        · rwa [ensureLock_sessions]
        · simp [ensureLock_nextClientId]
        · intro hb
          have hb' : idsBounded (ensureLock server st) = true := by
            rwa [idsBounded_ensureLock]
          have : sid < (ensureLock server st).nextClientId :=
            idsBounded_lookup_lt hb' (by rwa [ensureLock_sessions])
          exact ⟨this, hb'⟩
      · rw [get_session_recreate env server st sid hl hc,
          createAndReturn_ok _ _ _ _ h]
        refine ⟨_, _, _, rfl, ?_, ?_, ?_, ?_⟩
        · simp [dictLookup_insert]
        · simp [cleanup_session, ensureLock_nextClientId]
        · simp [countAttempts, isAttemptEvent]
        · intro hb
          refine ⟨Nat.lt_succ_self _, ?_⟩
          have hb' : idsBounded (ensureLock server st) = true := by
            rwa [idsBounded_ensureLock]
          exact idsBounded_insert_fresh server (idsBounded_delete server hb')

theorem countAttempts_append (a b : List MEvent) :
    countAttempts (a ++ b) = countAttempts a + countAttempts b := by
  simp [countAttempts, List.filter_append]

/-- One loop iteration of `call_tool` under a failing transport: the
attempt errors, leaves a stored session behind, and records exactly one
transport call. -/
theorem call_tool_attempt_fails (env : Env) (server : String)
    (args : List (String × String)) (attempt : Nat) (st : ManagerState)
    (hok : env.clientOk server = true)
    (hfail : ∀ cid, ∃ e, env.toolOutcome attempt cid args = .error e) :
    ∃ e st' ev,
      call_tool_attempt env server args attempt st = (.error e, st', ev) ∧
      (∃ cid, dictLookup st'.sessions server = some cid) ∧
      countAttempts ev = 1 ∧
      st.nextClientId ≤ st'.nextClientId ∧
      (idsBounded st = true → idsBounded st' = true) := by
  obtain ⟨cid, st', ev, heq, hlook, hnext, hcnt, hbnd⟩ :=
    get_session_clientOk env server st hok
  obtain ⟨e, he⟩ := hfail cid
  refine ⟨e, st', ev ++ [.attemptCall attempt cid], ?_, ⟨cid, hlook⟩, ?_, hnext, ?_⟩
  · simp [call_tool_attempt, heq, he]
  · rw [countAttempts_append, hcnt]
    rfl
  · intro hb
    exact (hbnd hb).2

theorem terminal_msg_eq (tool e : String) :
    "Tool '" ++ tool ++ "' failed after " ++ toString (2 : Nat)
        ++ " attempts. Last error: " ++ e =
      "Tool '" ++ tool ++ "' failed after 2 attempts. Last error: " ++ e := by
  have hs : ∀ a b : String, a.data = b.data → a = b := by
    intro a b h
    obtain ⟨as⟩ := a; obtain ⟨bs⟩ := b
    cases h; rfl
  apply hs
  have h2 : (toString (2 : Nat)) = "2" := rfl
  rw [h2]
  simp only [strData_append, List.append_assoc]
  have hlit : ("' failed after " : String).data ++
      (("2" : String).data ++ ((" attempts. Last error: " : String).data ++ e.data)) =
      ("' failed after 2 attempts. Last error: " : String).data ++ e.data := by
    have : ("' failed after " : String).data ++ (("2" : String).data ++
        (" attempts. Last error: " : String).data) =
        ("' failed after 2 attempts. Last error: " : String).data := by decide
    rw [← this]
    simp [List.append_assoc]
  rw [hlit]

theorem terminal_msg_contains_tool (tool e : String) :
    strContainsSub
      ("Tool '" ++ tool ++ "' failed after 2 attempts. Last error: " ++ e)
      tool = true := by
  apply strContainsSub_of_split _ _ ("Tool '" : String).data
    (("' failed after 2 attempts. Last error: " : String).data ++ e.data)
  simp [strData_append, List.append_assoc]

theorem terminal_msg_contains_marker (tool e : String) :
    strContainsSub
      ("Tool '" ++ tool ++ "' failed after 2 attempts. Last error: " ++ e)
      "failed after 2 attempts" = true := by
  apply strContainsSub_of_split _ _
    (("Tool '" : String).data ++ (tool.data ++ ("' " : String).data))
    ((". Last error: " : String).data ++ e.data)
  have hlit : ("' failed after 2 attempts. Last error: " : String).data =
      ("' " : String).data ++ (("failed after 2 attempts" : String).data ++
        (". Last error: " : String).data) := by decide
  simp [strData_append, hlit, List.append_assoc]

/-- C1: with client construction succeeding and every delegated
transport call failing, `call_tool` performs exactly 2 loop iterations
and exactly 2 transport calls, then raises the terminal error naming
the tool and containing `failed after 2 attempts`; no third attempt
occurs (the iteration count is exactly 2). -/
theorem call_tool_always_fails (env : Env) (server tool : String)
    (args : List (String × String)) (st : ManagerState)
    (hok : env.clientOk server = true)
    (hfail : ∀ attempt cid, ∃ e, env.toolOutcome attempt cid args = .error e) :
    (call_tool env server tool args st).2.2.2 = 2 ∧
    countAttempts (call_tool env server tool args st).2.2.1 = 2 ∧
    ∃ msg, (call_tool env server tool args st).1 = .error msg ∧
      strContainsSub msg tool = true ∧
      strContainsSub msg "failed after 2 attempts" = true := by
  obtain ⟨e0, st1, ev1, hA0, ⟨cid1, hlook1⟩, hcnt1, _, _⟩ :=
    call_tool_attempt_fails env server args 0 st hok (hfail 0)
  obtain ⟨e1, st2, ev2, hA1, _, hcnt2, _, _⟩ :=
    call_tool_attempt_fails env server args 1
      (cleanup_session server st1).1 hok (hfail 1)
  simp only [cleanup_session] at hA1
  have hrun : call_tool env server tool args st =
      (.error ("Tool '" ++ tool ++ "' failed after " ++ toString (2 : Nat)
          ++ " attempts. Last error: " ++ e1),
       st2, ev1 ++ (cleanup_session server st1).2 ++ ev2, 2) := by
    simp [call_tool, call_tool_go, hA0, hA1, hlook1, cleanup_session]
  refine ⟨by rw [hrun], ?_, ?_⟩
  · rw [hrun]
    simp only [countAttempts_append, hcnt1, hcnt2]
    simp [cleanup_session, countAttempts, isAttemptEvent]
  · refine ⟨"Tool '" ++ tool ++ "' failed after 2 attempts. Last error: " ++ e1,
      ?_, terminal_msg_contains_tool tool e1, terminal_msg_contains_marker tool e1⟩
    rw [hrun]
    rw [terminal_msg_eq]

/-- Witness for C1 at a concrete environment and the initial state. -/
theorem call_tool_always_fails_witness :
    (call_tool envAlwaysFail "s1" "echo" [] initState).2.2.2 = 2 ∧
    countAttempts (call_tool envAlwaysFail "s1" "echo" [] initState).2.2.1 = 2 ∧
    ∃ msg, (call_tool envAlwaysFail "s1" "echo" [] initState).1 = .error msg ∧
      strContainsSub msg "echo" = true ∧
      strContainsSub msg "failed after 2 attempts" = true :=
  call_tool_always_fails envAlwaysFail "s1" "echo" [] initState rfl
    (fun _ _ => ⟨"boom", rfl⟩)

/-- Fresh-create form of `get_session`: with no stored session and a
working client constructor, the returned id is the current value of the
freshness counter and is stored in both maps. -/
theorem get_session_fresh_spec (env : Env) (server : String) (st : ManagerState)
    (hok : env.clientOk server = true)
    (hl : dictLookup st.sessions server = none) :
    ∃ st', get_session env server st =
        (.ok st.nextClientId, st', [.createdClient server st.nextClientId]) ∧
      dictLookup st'.sessions server = some st.nextClientId ∧
      dictLookup st'.clients server = some st.nextClientId := by
  rw [get_session_fresh env server st hl, createAndReturn_ok _ _ _ _ hok]
  refine ⟨{ ensureLock server st with
      clients := dictInsert (ensureLock server st).clients server
        (ensureLock server st).nextClientId,
      sessions := dictInsert (ensureLock server st).sessions server
        (ensureLock server st).nextClientId,
      nextClientId := (ensureLock server st).nextClientId + 1 }, ?_, ?_, ?_⟩
  · rw [ensureLock_nextClientId]
    simp
  · simp [dictLookup_insert, ensureLock_nextClientId]
  · simp [dictLookup_insert, ensureLock_nextClientId]

/-- C2: when the first delegated attempt fails and the second succeeds,
`call_tool` returns the second attempt's result, and the client stored
for the server afterwards is a different object (different identity)
from the one the failed first attempt used: the broken client was
discarded and a fresh one constructed. -/
theorem call_tool_recovers (env : Env) (server tool : String)
    (args : List (String × String)) (st : ManagerState)
    (hb : idsBounded st = true)
    (hok : env.clientOk server = true)
    (h0 : ∀ cid, ∃ e, env.toolOutcome 0 cid args = .error e)
    (h1 : ∀ cid, ∃ r, env.toolOutcome 1 cid args = .ok r) :
    ∃ r cid0 cid1,
      (call_tool env server tool args st).1 = .ok (some r) ∧
      env.toolOutcome 1 cid1 args = .ok r ∧
      MEvent.attemptCall 0 cid0 ∈ (call_tool env server tool args st).2.2.1 ∧
      MEvent.attemptCall 1 cid1 ∈ (call_tool env server tool args st).2.2.1 ∧
      dictLookup (call_tool env server tool args st).2.1.sessions server = some cid1 ∧
      dictLookup (call_tool env server tool args st).2.1.clients server = some cid1 ∧
      cid0 ≠ cid1 := by
  obtain ⟨cid0, stA, evA, hgs0, hlookA, _, _, hbndA⟩ :=
    get_session_clientOk env server st hok
  obtain ⟨e0, he0⟩ := h0 cid0
  have hatt0 : call_tool_attempt env server args 0 st =
      (.error e0, stA, evA ++ [.attemptCall 0 cid0]) := by
    simp [call_tool_attempt, hgs0, he0]
  obtain ⟨hcid0lt, _⟩ := hbndA hb
  have hl2 : dictLookup (cleanup_session server stA).1.sessions server = none := by
    simp [cleanup_session, dictLookup_delete]
  obtain ⟨stB, hgs1, hlookBs, hlookBc⟩ :=
    get_session_fresh_spec env server (cleanup_session server stA).1 hok hl2
  obtain ⟨r, hr⟩ := h1 ((cleanup_session server stA).1.nextClientId)
  have hatt1 : call_tool_attempt env server args 1 (cleanup_session server stA).1 =
      (.ok r, stB,
       [.createdClient server (cleanup_session server stA).1.nextClientId,
        .attemptCall 1 (cleanup_session server stA).1.nextClientId]) := by
    simp [call_tool_attempt, hgs1, hr]
  simp only [cleanup_session] at hatt1 hlookBs hlookBc hr
  have hrun : call_tool env server tool args st =
      (.ok (some r), stB,
       (evA ++ [.attemptCall 0 cid0]) ++ [.cleanedSession server] ++
         [.createdClient server stA.nextClientId,
          .attemptCall 1 stA.nextClientId], 2) := by
    simp [call_tool, call_tool_go, hatt0, hatt1, hlookA, cleanup_session]
  refine ⟨r, cid0, stA.nextClientId, ?_, ?_, ?_, ?_, ?_, ?_, ?_⟩
  · rw [hrun]
  · exact hr
  · rw [hrun]; simp
  · rw [hrun]; simp
  · rw [hrun]; exact hlookBs
  · rw [hrun]; exact hlookBc
  · exact Nat.ne_of_lt hcid0lt

/-- Witness for C2 at a concrete environment and the initial state. -/
theorem call_tool_recovers_witness :
    ∃ r cid0 cid1,
      (call_tool envRecover "s1" "echo" [] initState).1 = .ok (some r) ∧
      envRecover.toolOutcome 1 cid1 [] = .ok r ∧
      MEvent.attemptCall 0 cid0 ∈ (call_tool envRecover "s1" "echo" [] initState).2.2.1 ∧
      MEvent.attemptCall 1 cid1 ∈ (call_tool envRecover "s1" "echo" [] initState).2.2.1 ∧
      dictLookup (call_tool envRecover "s1" "echo" [] initState).2.1.sessions "s1" = some cid1 ∧
      dictLookup (call_tool envRecover "s1" "echo" [] initState).2.1.clients "s1" = some cid1 ∧
      cid0 ≠ cid1 :=
  call_tool_recovers envRecover "s1" "echo" [] initState rfl rfl
    (fun _ => ⟨"boom", rfl⟩) (fun _ => ⟨7, rfl⟩)

/-! ### `cleanup` lemmas -/

theorem mem_dictDelete_ne {m : List (String × Nat)} {k : String}
    {p : String × Nat} (h : p ∈ dictDelete m k) : p.1 ≠ k := by
  induction m with
  | nil => simp [dictDelete] at h
  | cons q rest ih =>
      obtain ⟨qk, qv⟩ := q
      by_cases h1 : qk = k
      · subst h1
        simp [dictDelete] at h
        exact ih h
      · simp [dictDelete, h1] at h
        rcases h with h | h
        · subst h; exact h1
        · exact ih h

theorem cleanup_fold (keys : List String) (st : ManagerState) (evs : List MEvent) :
    (keys.foldl
        (fun acc k =>
          match cleanup_session k acc.1 with
          | (s, e) => (s, acc.2 ++ e))
        (st, evs)) =
      (keys.foldl (fun s k => (cleanup_session k s).1) st,
       evs ++ keys.map MEvent.cleanedSession) := by
  induction keys generalizing st evs with
  | nil => simp
  | cons k ks ih =>
      simp only [cleanup_session] at ih ⊢
      simp [ih, List.append_assoc]

theorem cleanupFold_sessions (keys : List String) (st : ManagerState) :
    (keys.foldl (fun s k => (cleanup_session k s).1) st).sessions =
      keys.foldl dictDelete st.sessions := by
  induction keys generalizing st with
  | nil => rfl
  | cons k ks ih =>
      simp only [cleanup_session] at ih ⊢
      simp [ih]

theorem cleanupFold_clients (keys : List String) (st : ManagerState) :
    (keys.foldl (fun s k => (cleanup_session k s).1) st).clients =
      keys.foldl dictDelete st.clients := by
  induction keys generalizing st with
  | nil => rfl
  | cons k ks ih =>
      simp only [cleanup_session] at ih ⊢
      simp [ih]

theorem cleanupFold_locks (keys : List String) (st : ManagerState) :
    (keys.foldl (fun s k => (cleanup_session k s).1) st).locks = st.locks := by
  induction keys generalizing st with
  | nil => rfl
  | cons k ks ih =>
      simp only [cleanup_session] at ih ⊢
      simp [ih]

theorem foldl_dictDelete_all (keys : List String) (m : List (String × Nat))
    (h : ∀ p ∈ m, p.1 ∈ keys) : keys.foldl dictDelete m = [] := by
  induction keys generalizing m with
  | nil =>
      cases m with
      | nil => rfl
      | cons p rest => exact absurd (h p (by simp)) (by simp)
  | cons k ks ih =>
      simp only [List.foldl_cons]
      refine ih (dictDelete m k) ?_
      intro p hp
      have hmem := mem_dictDelete hp
      have hne := mem_dictDelete_ne hp
      rcases List.mem_cons.mp (h p hmem) with h' | h'
      · exact absurd h' hne
      · exact h'

/-- C4: one `cleanup()` empties both `_sessions` and `_clients` (on any
state where the two maps coincide, as they do on every reachable
state), and a second `cleanup()` is a pure no-op for any state: it
touches no entry, changes nothing, emits no teardown events — and, the
model being total like the source (`_cleanup_session` catches every
exception), raises nothing. -/
theorem cleanup_idempotent (st : ManagerState) (hcs : st.clients = st.sessions) :
    (cleanup st).1.sessions = [] ∧
    (cleanup st).1.clients = [] ∧
    cleanup (cleanup st).1 = ((cleanup st).1, []) := by
  have hkeys : ∀ p ∈ st.sessions, p.1 ∈ dictKeys st.sessions := by
    intro p hp
    exact List.mem_map_of_mem _ hp
  have hs : (cleanup st).1.sessions = [] := by
    rw [cleanup, cleanup_fold, cleanupFold_sessions]
    exact foldl_dictDelete_all _ _ hkeys
  have hc : (cleanup st).1.clients = [] := by
    rw [cleanup, cleanup_fold, cleanupFold_clients, hcs]
    exact foldl_dictDelete_all _ _ hkeys
  refine ⟨hs, hc, ?_⟩
  rw [cleanup, show dictKeys (cleanup st).1.sessions = [] by rw [hs]; rfl]
  rfl

/-- Witness for C4 at a concrete one-server state. -/
theorem cleanup_idempotent_witness :
    (cleanup (ManagerState.mk [("s1", 0)] [("s1", 0)] [("s1", 0)] 1 1)).1.sessions = [] ∧
    (cleanup (ManagerState.mk [("s1", 0)] [("s1", 0)] [("s1", 0)] 1 1)).1.clients = [] ∧
    cleanup (cleanup (ManagerState.mk [("s1", 0)] [("s1", 0)] [("s1", 0)] 1 1)).1 =
      ((cleanup (ManagerState.mk [("s1", 0)] [("s1", 0)] [("s1", 0)] 1 1)).1, []) :=
  cleanup_idempotent (ManagerState.mk [("s1", 0)] [("s1", 0)] [("s1", 0)] 1 1) rfl

/-- C7: `_create_session` is atomic on failure — when client
construction raises, the exception propagates and the whole state is
exactly as before the attempt (the stores into `_clients`/`_sessions`
sit after construction, so no partial entry can be left).  Through
`get_session` on a server with no stored session, the same failure
propagates with `_sessions`/`_clients` untouched (only the lock map may
have gained the server's lock). -/
theorem create_session_atomic (env : Env) (server : String) (st : ManagerState)
    (h : env.clientOk server = false) :
    create_session env server st =
      (.error ("Failed to create client for " ++ server), st, []) ∧
    (dictLookup st.sessions server = none →
      get_session env server st =
        (.error ("Failed to create client for " ++ server), ensureLock server st, []) ∧
      (ensureLock server st).sessions = st.sessions ∧
      (ensureLock server st).clients = st.clients) := by
  constructor
  · simp [create_session, h]
  · intro hl
    refine ⟨?_, ensureLock_sessions _ _, ensureLock_clients _ _⟩
    rw [get_session_fresh env server st hl, createAndReturn_fail _ _ _ _ h]

/-- Witness for C7: failing construction at the initial state. -/
theorem create_session_atomic_witness :
    create_session envNoClient "s1" initState =
      (.error ("Failed to create client for " ++ "s1"), initState, []) ∧
    get_session envNoClient "s1" initState =
      (.error ("Failed to create client for " ++ "s1"), ensureLock "s1" initState, []) := by
  have h := create_session_atomic envNoClient "s1" initState rfl
  exact ⟨h.1, (h.2 rfl).1⟩

/-- C6: the per-tool wrapper adds no retry of its own — its state,
events and iteration count are those of exactly one `call_tool`
invocation — and it maps results as the source does: successes pass
through, an exception whose text contains `failed after` (the manager's
terminal retry error) is re-raised unchanged, and any other exception
is wrapped as `Tool '<name>' failed: <e>`. -/
theorem persistent_tool_func_spec (env : Env) (server tool : String)
    (args : List (String × String)) (st : ManagerState) :
    (persistent_tool_func env server tool args st).2 =
      (call_tool env server tool args st).2 ∧
    (∀ v, (call_tool env server tool args st).1 = .ok v →
      (persistent_tool_func env server tool args st).1 = .ok v) ∧
    (∀ e, (call_tool env server tool args st).1 = .error e →
      strContainsSub e "failed after" = true →
      (persistent_tool_func env server tool args st).1 = .error e) ∧
    (∀ e, (call_tool env server tool args st).1 = .error e →
      strContainsSub e "failed after" = false →
      (persistent_tool_func env server tool args st).1 =
        .error ("Tool '" ++ tool ++ "' failed: " ++ e)) := by
  rcases hc : call_tool env server tool args st with ⟨res, st', ev, n⟩
  cases res with
  | ok v => simp [persistent_tool_func, hc]
  | error e =>
      by_cases hm : strContainsSub e "failed after" = true
      · simp [persistent_tool_func, hc, hm]
      · have hm' : strContainsSub e "failed after" = false := by
          simpa using hm
        simp [persistent_tool_func, hc, hm']

/-- Witness for C6: the terminal retry error of a concrete failing run
is propagated unchanged by the wrapper. -/
theorem persistent_tool_func_spec_witness :
    (persistent_tool_func envAlwaysFail "s1" "echo" [] initState).1 =
      .error "Tool 'echo' failed after 2 attempts. Last error: boom" := by
  have h := persistent_tool_func_spec envAlwaysFail "s1" "echo" [] initState
  exact h.2.2.1 "Tool 'echo' failed after 2 attempts. Last error: boom"
    rfl (by decide)

/-- C3 counterexample: with every configured server failing to deliver
its tools, `create_persistent_tools` does not raise an aggregated
error — it catches each failure, `continue`s, and returns normally with
zero tools.  (Its embedding has no error outcome at all, because the
source catches every per-server exception and the outer `ImportError`.) -/
theorem create_persistent_tools_all_fail_returns_empty :
    create_persistent_tools envAlwaysFail ["s1", "s2"] = [] := rfl

/-- C3 (amended): `create_persistent_tools` yields exactly the tools of
the succeeding servers, each failing server contributing nothing; when
every server fails it returns the empty tool list instead of raising. -/
theorem create_persistent_tools_spec (env : Env) (config : List String) :
    create_persistent_tools env config = (config.map (toolsOfServer env)).join ∧
    ((∀ s ∈ config, ∃ e, env.getTools s = .error e) →
      create_persistent_tools env config = []) := by
  have hfold : ∀ (cfg : List String) (acc : List (String × String)),
      cfg.foldl
          (fun acc server =>
            match env.getTools server with
            | .ok schemas => acc ++ schemas.map (fun t => (server, t))
            | .error _ => acc) acc =
        acc ++ (cfg.map (toolsOfServer env)).join := by
    intro cfg
    induction cfg with
    | nil => intro acc; simp
    | cons s ss ih =>
        intro acc
        cases h : env.getTools s <;>
          simp [toolsOfServer, h, ih, List.append_assoc]
  have h1 : create_persistent_tools env config =
      (config.map (toolsOfServer env)).join := by
    rw [create_persistent_tools, hfold config []]
    simp
  refine ⟨h1, ?_⟩
  intro hall
  rw [h1]
  have : ∀ l ∈ config.map (toolsOfServer env), l = [] := by
    intro l hl
    obtain ⟨s, hs, rfl⟩ := List.mem_map.mp hl
    obtain ⟨e, he⟩ := hall s hs
    simp [toolsOfServer, he]
  exact List.join_eq_nil.mpr this

/-- Witness for C3's amended claim: all-fail configuration yields the
join characterization and the empty list. -/
theorem create_persistent_tools_spec_witness :
    create_persistent_tools envAlwaysFail ["s1", "s2"] =
      ((["s1", "s2"].map (toolsOfServer envAlwaysFail)).join) ∧
    create_persistent_tools envAlwaysFail ["s1", "s2"] = [] := by
  have h := create_persistent_tools_spec envAlwaysFail ["s1", "s2"]
  exact ⟨h.1, h.2 (fun s _ => ⟨"server down", rfl⟩)⟩

/-! ### Lock-map lemmas (C8) -/

theorem create_session_locks (env : Env) (server : String) (st : ManagerState) :
    (create_session env server st).2.1.locks = st.locks := by
  unfold create_session; split <;> rfl

theorem createAndReturn_state (env : Env) (server : String) (st : ManagerState)
    (evs : List MEvent) :
    (createAndReturn env server st evs).2.1 = (create_session env server st).2.1 := by
  unfold createAndReturn
  rcases hc : create_session env server st with ⟨res, st', ev⟩
  cases res with
  | ok u => cases hl : dictLookup st'.sessions server <;> simp [hl]
  | error e => simp

theorem cleanup_session_locks (server : String) (st : ManagerState) :
    (cleanup_session server st).1.locks = st.locks := rfl

theorem get_session_locks (env : Env) (server : String) (st : ManagerState) :
    (get_session env server st).2.1.locks = (ensureLock server st).locks := by
  cases hl : dictLookup st.sessions server with
  | none =>
      rw [get_session_fresh env server st hl, createAndReturn_state,
        create_session_locks]
  | some sid =>
      have hcheck : (env.check sid = .noCheck ∨ env.check sid = .openT) ∨
          (env.check sid = .closedT ∨ env.check sid = .exn) := by
        cases env.check sid <;> simp
      rcases hcheck with hc | hc
      · rw [get_session_reuse env server st sid hl hc]
      · rw [get_session_recreate env server st sid hl hc,
          createAndReturn_state, create_session_locks, cleanup_session_locks]

theorem ensureLock_lockPreserved (server : String) (st : ManagerState) :
    lockPreserved st (ensureLock server st) := by
  intro name l h
  unfold ensureLock
  cases hl : dictLookup st.locks server with
  | some _ => exact h
  | none =>
      show dictLookup (dictInsert st.locks server st.nextLockId) name = some l
      rw [dictLookup_insert]
      by_cases hn : server = name
      · subst hn; rw [hl] at h; cases h
      · simp [hn, h]

theorem get_session_lockPreserved (env : Env) (server : String) (st : ManagerState) :
    lockPreserved st (get_session env server st).2.1 := by
  intro name l h
  have h2 := ensureLock_lockPreserved server st name l h
  show dictLookup (get_session env server st).2.1.locks name = some l
  rw [get_session_locks]
  exact h2

theorem call_tool_attempt_state (env : Env) (server : String)
    (args : List (String × String)) (attempt : Nat) (st : ManagerState) :
    (call_tool_attempt env server args attempt st).2.1 =
      (get_session env server st).2.1 := by
  unfold call_tool_attempt
  rcases hg : get_session env server st with ⟨res, st', ev⟩
  cases res with
  | ok cid => cases ho : env.toolOutcome attempt cid args <;> simp [ho]
  | error e => simp

theorem call_tool_go_lockPreserved (env : Env) (server tool : String)
    (args : List (String × String)) (maxRetries : Nat) :
    ∀ fuel attempt st,
      lockPreserved st (call_tool_go env server tool args maxRetries fuel attempt st).2.1 := by
  intro fuel
  induction fuel with
  | zero => intro attempt st name l h; exact h
  | succ fuel ih =>
      intro attempt st name l h
      have hpres : dictLookup (call_tool_attempt env server args attempt st).2.1.locks
          name = some l := by
        rw [call_tool_attempt_state]
        exact get_session_lockPreserved env server st name l h
      simp only [call_tool_go]
      rcases hA : call_tool_attempt env server args attempt st with ⟨res, st', ev⟩
      rw [hA] at hpres
      cases res with
      | ok r => exact hpres
      | error e =>
          by_cases hlast : attempt = maxRetries - 1
          · simp only [if_pos hlast]
            exact hpres
          · simp only [if_neg hlast]
            by_cases hs : (dictLookup st'.sessions server).isSome
            · simp only [if_pos hs, cleanup_session]
              rcases hr : call_tool_go env server tool args maxRetries fuel
                  (attempt + 1)
                  { st' with
                      sessions := dictDelete st'.sessions server,
                      clients := dictDelete st'.clients server } with
                ⟨r4, st4, ev4, n4⟩
              have := ih (attempt + 1)
                { st' with
                    sessions := dictDelete st'.sessions server,
                    clients := dictDelete st'.clients server } name l hpres
              rw [hr] at this
              exact this
            · simp only [if_neg hs]
              rcases hr : call_tool_go env server tool args maxRetries fuel
                  (attempt + 1) st' with ⟨r4, st4, ev4, n4⟩
              have := ih (attempt + 1) st' name l hpres
              rw [hr] at this
              exact this

theorem list_tools_state (env : Env) (server : String) (st : ManagerState) :
    (list_tools env server st).2.1 = (get_session env server st).2.1 := by
  unfold list_tools
  rcases hg : get_session env server st with ⟨res, st', ev⟩
  cases res with
  | ok cid => rfl
  | error e => rfl

/-- C8: the lock map is monotone.  `get_session` creates the server's
lock only when none exists and leaves an existing lock map untouched;
every manager operation — `get_session`, `call_tool`, `list_tools`,
`cleanup`, `_cleanup_session` — keeps every existing lock entry intact
(only session/client entries are ever deleted). -/
theorem locks_monotone (env : Env) (server tool : String)
    (args : List (String × String)) (st : ManagerState) :
    ((∃ l, dictLookup st.locks server = some l) →
      (get_session env server st).2.1.locks = st.locks) ∧
    (dictLookup st.locks server = none →
      (get_session env server st).2.1.locks =
        dictInsert st.locks server st.nextLockId) ∧
    lockPreserved st (get_session env server st).2.1 ∧
    lockPreserved st (call_tool env server tool args st).2.1 ∧
    lockPreserved st (list_tools env server st).2.1 ∧
    (cleanup_session server st).1.locks = st.locks ∧
    (cleanup st).1.locks = st.locks := by
  refine ⟨?_, ?_, get_session_lockPreserved env server st, ?_, ?_, rfl, ?_⟩
  · intro ⟨l, hl⟩
    rw [get_session_locks]
    unfold ensureLock
    rw [hl]
  · intro hl
    rw [get_session_locks]
    unfold ensureLock
    rw [hl]
  · exact call_tool_go_lockPreserved env server tool args 2 2 0 st
  · intro name l h
    show dictLookup (list_tools env server st).2.1.locks name = some l
    rw [list_tools_state]
    exact get_session_lockPreserved env server st name l h
  · rw [cleanup, cleanup_fold, cleanupFold_locks]

/-- Witness for C8 at the initial state (no lock exists yet, so
`get_session` creates exactly one). -/
theorem locks_monotone_witness :
    (get_session envAlwaysFail "s1" initState).2.1.locks =
      dictInsert initState.locks "s1" initState.nextLockId :=
  (locks_monotone envAlwaysFail "s1" "echo" [] initState).2.1 rfl

/-! ### `_sessions`/`_clients` alignment lemmas (C10) -/

theorem mapsAligned_of_eq {st : ManagerState} (h : st.clients = st.sessions) :
    mapsAligned st := by
  intro k; rw [h]

theorem create_session_mapsEq (env : Env) (server : String) (st : ManagerState)
    (h : st.clients = st.sessions) :
    (create_session env server st).2.1.clients =
      (create_session env server st).2.1.sessions := by
  unfold create_session; split <;> simp [h]

theorem cleanup_session_mapsEq (server : String) (st : ManagerState)
    (h : st.clients = st.sessions) :
    (cleanup_session server st).1.clients =
      (cleanup_session server st).1.sessions := by
  simp [cleanup_session, h]

theorem ensureLock_mapsEq (server : String) (st : ManagerState)
    (h : st.clients = st.sessions) :
    (ensureLock server st).clients = (ensureLock server st).sessions := by
  rw [ensureLock_clients, ensureLock_sessions]; exact h

theorem get_session_mapsEq (env : Env) (server : String) (st : ManagerState)
    (h : st.clients = st.sessions) :
    (get_session env server st).2.1.clients =
      (get_session env server st).2.1.sessions := by
  cases hl : dictLookup st.sessions server with
  | none =>
      rw [get_session_fresh env server st hl, createAndReturn_state]
      exact create_session_mapsEq env server _ (ensureLock_mapsEq server st h)
  | some sid =>
      have hcheck : (env.check sid = .noCheck ∨ env.check sid = .openT) ∨
          (env.check sid = .closedT ∨ env.check sid = .exn) := by
        cases env.check sid <;> simp
      rcases hcheck with hc | hc
      · rw [get_session_reuse env server st sid hl hc]
        exact ensureLock_mapsEq server st h
      · rw [get_session_recreate env server st sid hl hc, createAndReturn_state]
        exact create_session_mapsEq env server _
          (cleanup_session_mapsEq server _ (ensureLock_mapsEq server st h))

theorem call_tool_attempt_mapsEq (env : Env) (server : String)
    (args : List (String × String)) (attempt : Nat) (st : ManagerState)
    (h : st.clients = st.sessions) :
    (call_tool_attempt env server args attempt st).2.1.clients =
      (call_tool_attempt env server args attempt st).2.1.sessions := by
  rw [call_tool_attempt_state]
  exact get_session_mapsEq env server st h

theorem call_tool_go_mapsEq (env : Env) (server tool : String)
    (args : List (String × String)) (maxRetries : Nat) :
    ∀ fuel attempt st, st.clients = st.sessions →
      (call_tool_go env server tool args maxRetries fuel attempt st).2.1.clients =
        (call_tool_go env server tool args maxRetries fuel attempt st).2.1.sessions := by
  intro fuel
  induction fuel with
  | zero => intro attempt st h; exact h
  | succ fuel ih =>
      intro attempt st h
      have hA' : (call_tool_attempt env server args attempt st).2.1.clients =
          (call_tool_attempt env server args attempt st).2.1.sessions :=
        call_tool_attempt_mapsEq env server args attempt st h
      simp only [call_tool_go]
      rcases hA : call_tool_attempt env server args attempt st with ⟨res, st', ev⟩
      rw [hA] at hA'
      dsimp only at hA'
      cases res with
      | ok r => exact hA'
      | error e =>
          by_cases hlast : attempt = maxRetries - 1
          · simp only [if_pos hlast]
            exact hA'
          · simp only [if_neg hlast]
            by_cases hs : (dictLookup st'.sessions server).isSome
            · simp only [if_pos hs, cleanup_session]
              rcases hr : call_tool_go env server tool args maxRetries fuel
                  (attempt + 1)
                  { st' with
                      sessions := dictDelete st'.sessions server,
                      clients := dictDelete st'.clients server } with
                ⟨r4, st4, ev4, n4⟩
              have := ih (attempt + 1)
                { st' with
                    sessions := dictDelete st'.sessions server,
                    clients := dictDelete st'.clients server } (by simp [hA'])
              rw [hr] at this
              exact this
            · simp only [if_neg hs]
              rcases hr : call_tool_go env server tool args maxRetries fuel
                  (attempt + 1) st' with ⟨r4, st4, ev4, n4⟩
              have := ih (attempt + 1) st' hA'
              rw [hr] at this
              exact this

theorem cleanup_mapsEq (st : ManagerState) (h : st.clients = st.sessions) :
    (cleanup st).1.clients = (cleanup st).1.sessions := by
  rw [cleanup, cleanup_fold, cleanupFold_clients, cleanupFold_sessions, h]

theorem get_session_ok_lookup (env : Env) (server : String) (st : ManagerState)
    (cid : Nat) (st' : ManagerState) (ev : List MEvent)
    (h : get_session env server st = (.ok cid, st', ev)) :
    dictLookup st'.sessions server = some cid := by
  cases hl : dictLookup st.sessions server with
  | some sid =>
      have hcheck : (env.check sid = .noCheck ∨ env.check sid = .openT) ∨
          (env.check sid = .closedT ∨ env.check sid = .exn) := by
        cases env.check sid <;> simp
      rcases hcheck with hc | hc
      · rw [get_session_reuse env server st sid hl hc] at h
        simp only [Prod.mk.injEq, Except.ok.injEq] at h
        obtain ⟨rfl, rfl, rfl⟩ := h
        rwa [ensureLock_sessions]
      · rw [get_session_recreate env server st sid hl hc] at h
        cases hok : env.clientOk server with
        | false =>
            rw [createAndReturn_fail _ _ _ _ hok] at h
            simp at h
        | true =>
            rw [createAndReturn_ok _ _ _ _ hok] at h
            simp only [Prod.mk.injEq, Except.ok.injEq] at h
            obtain ⟨h1, h2, _⟩ := h
            rw [← h2]
            simp [dictLookup_insert, h1]
  | none =>
      rw [get_session_fresh env server st hl] at h
      cases hok : env.clientOk server with
      | false =>
          rw [createAndReturn_fail _ _ _ _ hok] at h
          simp at h
      | true =>
          rw [createAndReturn_ok _ _ _ _ hok] at h
          simp only [Prod.mk.injEq, Except.ok.injEq] at h
          obtain ⟨h1, h2, _⟩ := h
          rw [← h2]
          simp [dictLookup_insert, h1]

/-- C10: the `_sessions` and `_clients` maps start equal and stay equal
(same keys, same client object per key) through every operation:
`_create_session`, `_cleanup_session`, `get_session`, `call_tool`,
`list_tools`, `cleanup`; and the client a successful `get_session`
returns is precisely the object stored for that server in both maps. -/
theorem sessions_clients_aligned (env : Env) (server tool : String)
    (args : List (String × String)) (st : ManagerState)
    (h : st.clients = st.sessions) :
    initState.clients = initState.sessions ∧
    (create_session env server st).2.1.clients =
      (create_session env server st).2.1.sessions ∧
    (cleanup_session server st).1.clients =
      (cleanup_session server st).1.sessions ∧
    (get_session env server st).2.1.clients =
      (get_session env server st).2.1.sessions ∧
    (call_tool env server tool args st).2.1.clients =
      (call_tool env server tool args st).2.1.sessions ∧
    (list_tools env server st).2.1.clients =
      (list_tools env server st).2.1.sessions ∧
    (cleanup st).1.clients = (cleanup st).1.sessions ∧
    mapsAligned (get_session env server st).2.1 ∧
    mapsAligned (call_tool env server tool args st).2.1 ∧
    (∀ cid st' ev, get_session env server st = (.ok cid, st', ev) →
      dictLookup st'.sessions server = some cid ∧
      dictLookup st'.clients server = some cid) := by
  have hgs := get_session_mapsEq env server st h
  have hct : (call_tool env server tool args st).2.1.clients =
      (call_tool env server tool args st).2.1.sessions :=
    call_tool_go_mapsEq env server tool args 2 2 0 st h
  refine ⟨rfl, create_session_mapsEq env server st h,
    cleanup_session_mapsEq server st h, hgs, hct, ?_, cleanup_mapsEq st h,
    mapsAligned_of_eq hgs, mapsAligned_of_eq hct, ?_⟩
  · rw [list_tools_state]
    exact hgs
  · intro cid st' ev hg
    have hsess := get_session_ok_lookup env server st cid st' ev hg
    have hEq : st'.clients = st'.sessions := by
      have := hgs
      rw [hg] at this
      exact this
    exact ⟨hsess, by rw [hEq]; exact hsess⟩

/-- Witness for C10 at the initial state. -/
theorem sessions_clients_aligned_witness :
    (call_tool envAlwaysFail "s1" "echo" [] initState).2.1.clients =
      (call_tool envAlwaysFail "s1" "echo" [] initState).2.1.sessions ∧
    mapsAligned (call_tool envAlwaysFail "s1" "echo" [] initState).2.1 := by
  have h := sessions_clients_aligned envAlwaysFail "s1" "echo" [] initState rfl
  exact ⟨h.2.2.2.2.1, h.2.2.2.2.2.2.2.2.1⟩

/-- C9: the logging sanitizer is total on argument values: strings of
length at most 500 pass through unchanged; longer strings are cut to
their first 500 characters plus the three-character `...` marker (503
characters in all, e.g. for a 1000-character input); any non-string
value becomes its string form. -/
theorem sanitize_for_logging_spec :
    (∀ s : String, s.length ≤ 500 → sanitize_for_logging (.str s) = s) ∧
    (∀ s : String, 500 < s.length →
      sanitize_for_logging (.str s) = String.mk (s.data.take 500) ++ "..." ∧
      (sanitize_for_logging (.str s)).length = 503) ∧
    (∀ r : String, sanitize_for_logging (.other r) = r) := by
  refine ⟨?_, ?_, fun r => rfl⟩
  · intro s hle
    have hnot : ¬500 < s.length := Nat.not_lt.mpr hle
    simp [sanitize_for_logging, hnot]
  · intro s hgt
    have heq : sanitize_for_logging (.str s) = String.mk (s.data.take 500) ++ "..." := by
      simp [sanitize_for_logging, hgt]
    refine ⟨heq, ?_⟩
    rw [heq]
    have hlen : ∀ t : String, t.length = t.data.length := fun t => rfl
    rw [hlen, strData_append]
    have hd : 500 ≤ s.data.length := by
      have := hgt
      rw [hlen] at this
      omega
    simp [List.length_take]
    omega

/-- Witness for C9: a short string, the 1000-character fixture, and a
stringified non-string value. -/
theorem sanitize_for_logging_spec_witness :
    sanitize_for_logging (.str "hello") = "hello" ∧
    (sanitize_for_logging (.str longArg)).length = 503 ∧
    sanitize_for_logging (.other "42") = "42" := by
  have h := sanitize_for_logging_spec
  refine ⟨h.1 "hello" (by decide), (h.2.1 longArg ?_).2, h.2.2 "42"⟩
  show 500 < longArg.length
  have : longArg.length = 1000 := by
    show (String.mk (List.replicate 1000 'a')).length = 1000
    rw [show ∀ l : List Char, (String.mk l).length = l.length from fun l => rfl]
    exact List.length_replicate 1000 'a'
  omega

/-! ### Concurrency model invariants (C5) -/

theorem initMachine_MInv : MInv initMachine := by
  refine ⟨?_, ?_, rfl⟩
  · intro j a hj
    rcases hj with hj | hj <;> simp [initMachine] at hj
  · intro j a hj
    simp [initMachine] at hj

theorem step_preserves_MInv (env : CEnv) (m : Machine) (i : Nat)
    (h : MInv m) : MInv (step env m i) := by
  obtain ⟨h1, h2, h3⟩ := h
  unfold LockInv at h1
  unfold CreatingInv at h2
  unfold CountInv at h3
  unfold MInv LockInv CreatingInv CountInv step
  cases hT : m.tasks i with
  | done => exact ⟨h1, h2, h3⟩
  | start a =>
      refine ⟨?_, ?_, h3⟩
      · intro j b hj
        refine h1 j b ?_
        by_cases hji : j = i
        · subst hji; simp [setPc] at hj
        · simpa [setPc, hji] using hj
      · intro j b hj
        refine h2 j b ?_
        by_cases hji : j = i
        · subst hji; simp [setPc] at hj
        · simpa [setPc, hji] using hj
  | waitLock a =>
      cases hL : m.lockHeld with
      | some k => exact ⟨h1, h2, h3⟩
      | none =>
          refine ⟨?_, ?_, h3⟩
          · intro j b hj
            by_cases hji : j = i
            · subst hji; rfl
            · have hmj : m.tasks j = .inspect b ∨ m.tasks j = .creating b := by
                simpa [setPc, hji] using hj
              have hcontra := h1 j b hmj
              rw [hL] at hcontra
              cases hcontra
          · intro j b hj
            by_cases hji : j = i
            · subst hji; simp [setPc] at hj
            · have hmj : m.tasks j = .creating b := by
                simpa [setPc, hji] using hj
              exact h2 j b hmj
  | inspect a =>
      have hLi : m.lockHeld = some i := h1 i a (Or.inl hT)
      cases hP : m.present with
      | none =>
          refine ⟨?_, ?_, h3⟩
          · intro j b hj
            by_cases hji : j = i
            · subst hji; exact hLi
            · have hmj : m.tasks j = .inspect b ∨ m.tasks j = .creating b := by
                simpa [setPc, hji] using hj
              exact h1 j b hmj
          · intro j b hj
            exact hP
      | some cid =>
          by_cases hv : env.valid cid = true
          · simp only [hv, if_true]
            refine ⟨?_, ?_, h3⟩
            · intro j b hj
              by_cases hji : j = i
              · subst hji; simp [setPc] at hj
              · have hmj : m.tasks j = .inspect b ∨ m.tasks j = .creating b := by
                  simpa [setPc, hji] using hj
                have heq := h1 j b hmj
                rw [hLi] at heq
                exact absurd (Option.some.inj heq).symm hji
            · intro j b hj
              by_cases hji : j = i
              · subst hji; simp [setPc] at hj
              · have hmj : m.tasks j = .creating b := by
                  simpa [setPc, hji] using hj
                have hcontra := h2 j b hmj
                rw [hP] at hcontra
                cases hcontra
          · simp only [hv, if_false]
            have h3' : m.created = m.cleaned + 1 := by
              rw [hP] at h3
              simpa using h3
            refine ⟨?_, ?_, ?_⟩
            · intro j b hj
              by_cases hji : j = i
              · subst hji; exact hLi
              · have hmj : m.tasks j = .inspect b ∨ m.tasks j = .creating b := by
                  simpa [setPc, hji] using hj
                exact h1 j b hmj
            · intro j b hj
              rfl
            · simp [setPc, h3']
  | creating a =>
      have hLi : m.lockHeld = some i := h1 i a (Or.inr hT)
      have hPn : m.present = none := h2 i a hT
      by_cases hc : env.createOk m.nextId = true
      · simp only [hc, if_true]
        have h3' : m.created = m.cleaned := by
          rw [hPn] at h3
          simpa using h3
        refine ⟨?_, ?_, ?_⟩
        · intro j b hj
          by_cases hji : j = i
          · subst hji; simp [setPc] at hj
          · have hmj : m.tasks j = .inspect b ∨ m.tasks j = .creating b := by
              simpa [setPc, hji] using hj
            have heq := h1 j b hmj
            rw [hLi] at heq
            exact absurd (Option.some.inj heq).symm hji
        · intro j b hj
          by_cases hji : j = i
          · subst hji; simp [setPc] at hj
          · have hmj : m.tasks j = .creating b := by
              simpa [setPc, hji] using hj
            have heq := h1 j b (Or.inr hmj)
            rw [hLi] at heq
            exact absurd (Option.some.inj heq).symm hji
        · simp [setPc, h3']
      · simp only [hc, if_false]
        refine ⟨?_, ?_, h3⟩
        · intro j b hj
          by_cases hji : j = i
          · subst hji; simp [setPc] at hj
          · have hmj : m.tasks j = .inspect b ∨ m.tasks j = .creating b := by
              simpa [setPc, hji] using hj
            have heq := h1 j b hmj
            rw [hLi] at heq
            exact absurd (Option.some.inj heq).symm hji
        · intro j b hj
          by_cases hji : j = i
          · subst hji; simp [setPc] at hj
          · have hmj : m.tasks j = .creating b := by
              simpa [setPc, hji] using hj
            exact h2 j b hmj
  | calling a cid =>
      by_cases hc : env.callOk i a = true
      · simp only [hc, if_true]
        refine ⟨?_, ?_, h3⟩
        · intro j b hj
          refine h1 j b ?_
          by_cases hji : j = i
          · subst hji; simp [setPc] at hj
          · simpa [setPc, hji] using hj
        · intro j b hj
          refine h2 j b ?_
          by_cases hji : j = i
          · subst hji; simp [setPc] at hj
          · simpa [setPc, hji] using hj
      · simp only [hc, if_false]
        refine ⟨?_, ?_, h3⟩
        · intro j b hj
          refine h1 j b ?_
          by_cases hji : j = i
          · subst hji; simp [setPc] at hj
          · simpa [setPc, hji] using hj
        · intro j b hj
          refine h2 j b ?_
          by_cases hji : j = i
          · subst hji; simp [setPc] at hj
          · simpa [setPc, hji] using hj
  | failing a =>
      by_cases ha : a ≥ 1
      · simp only [ha, if_true]
        refine ⟨?_, ?_, h3⟩
        · intro j b hj
          refine h1 j b ?_
          by_cases hji : j = i
          · subst hji; simp [setPc] at hj
          · simpa [setPc, hji] using hj
        · intro j b hj
          refine h2 j b ?_
          by_cases hji : j = i
          · subst hji; simp [setPc] at hj
          · simpa [setPc, hji] using hj
      · simp only [ha, if_false]
        cases hP : m.present with
        | some cid =>
            have h3' : m.created = m.cleaned + 1 := by
              rw [hP] at h3
              simpa using h3
            refine ⟨?_, ?_, ?_⟩
            · intro j b hj
              by_cases hji : j = i
              · subst hji; simp [setPc] at hj
              · have hmj : m.tasks j = .inspect b ∨ m.tasks j = .creating b := by
                  simpa [setPc, hji] using hj
                exact h1 j b hmj
            · intro j b hj
              rfl
            · simp [setPc, h3']
        | none =>
            refine ⟨?_, ?_, h3⟩
            · intro j b hj
              refine h1 j b ?_
              by_cases hji : j = i
              · subst hji; simp [setPc] at hj
              · simpa [setPc, hji] using hj
            · intro j b hj
              exact hP

theorem run_preserves_MInv (env : CEnv) (sched : List Nat) :
    ∀ m, MInv m → MInv (run env sched m) := by
  induction sched with
  | nil => intro m h; exact h
  | cons i rest ih =>
      intro m h
      exact ih (step env m i) (step_preserves_MInv env m i h)

/-- C5: in the interleaving model of arbitrarily many concurrent
`call_tool` callers for one server, under every schedule the number of
client constructions never exceeds the number of
recreation-after-failure teardowns plus one, and no two tasks are ever
inside `_create_session` simultaneously (creation is serialized by the
per-server lock). -/
theorem concurrent_creation_bound (env : CEnv) (sched : List Nat) :
    (run env sched initMachine).created ≤
      (run env sched initMachine).cleaned + 1 ∧
    (∀ i j a b, (run env sched initMachine).tasks i = .creating a →
      (run env sched initMachine).tasks j = .creating b → i = j) := by
  obtain ⟨h1, _, h3⟩ := run_preserves_MInv env sched initMachine initMachine_MInv
  constructor
  · unfold CountInv at h3
    cases hP : (run env sched initMachine).present with
    | none => rw [hP] at h3; simp at h3; omega
    | some cid => rw [hP] at h3; simp at h3; omega
  · intro i j a b hi hj
    have hli := h1 i a (Or.inr hi)
    have hlj := h1 j b (Or.inr hj)
    rw [hli] at hlj
    exact Option.some.inj hlj

/-- Witness for C5: one concrete schedule of three interleaved callers
under a flaky oracle. -/
theorem concurrent_creation_bound_witness :
    (run cenvFlaky [0, 1, 2, 0, 1, 2, 0, 1, 2, 0, 1, 2, 0, 1] initMachine).created ≤
      (run cenvFlaky [0, 1, 2, 0, 1, 2, 0, 1, 2, 0, 1, 2, 0, 1] initMachine).cleaned + 1 :=
  (concurrent_creation_bound cenvFlaky [0, 1, 2, 0, 1, 2, 0, 1, 2, 0, 1, 2, 0, 1]).1

end AgentDK
